import Mathlib

set_option maxRecDepth 10000

/-!
Shallow embedding of the bulk-load script `src/load.py` (document
normalization, bulk-payload preparation, batching, and the success-count
accounting of the batch loop), together with proofs about the claims of
the specification.

Python mappings are modelled as association lists over `String` keys
whose values live in the inductive type `PyVal` (strings, `None`,
integers, and nested mappings).  A well-formed Python `dict` has no
duplicate keys; the operations below (`dget?`, `dset`, `dpop`) implement
lookup, assignment and `pop` with first-match semantics, which agree
with Python on duplicate-free lists.
-/

namespace ESLoad

/-- A Python value as far as the load script inspects one: a string, the
`None` singleton, an integer (standing for any non-string, non-mapping,
non-`None` value), or a mapping from string keys to values. -/
inductive PyVal where
  | vstr (s : String)
  | vnone
  | vint (n : Int)
  | vdict (entries : List (String × PyVal))

/-- A Python mapping with string keys: the shape of a record (`doc`) and
of its nested `metadata` mapping in `load.py`. -/
abbrev Dict := List (String × PyVal)

/-- Python `d[k]` / `d.get(k)`: first entry with key `k`, if any. -/
def dget? : Dict → String → Option PyVal
  | [], _ => none
  | (k2, v) :: rest, k => if k2 = k then some v else dget? rest k

/-- Python `d.pop(k, None)`: remove the entry with key `k` (a no-op when
the key is absent), keeping the order of the other entries. -/
def dpop : Dict → String → Dict
  | [], _ => []
  | (k2, v) :: rest, k =>
      if k2 = k then dpop rest k else (k2, v) :: dpop rest k

/-- Replace the value of every entry with key `k` (on a duplicate-free
list: the value of the one entry with key `k`), keeping its position. -/
def dsetReplace : Dict → String → PyVal → Dict
  | [], _, _ => []
  | (k2, w) :: rest, k, v =>
      if k2 = k then (k, v) :: dsetReplace rest k v
      else (k2, w) :: dsetReplace rest k v

/-- Python `d[k] = v`: update the entry in place when the key is present
(keeping its position), append a new entry otherwise. -/
def dset (d : Dict) (k : String) (v : PyVal) : Dict :=
  if (dget? d k).isSome then dsetReplace d k v else d ++ [(k, v)]

/-- Left-to-right non-overlapping replacement of `pat` by `rep` in a
character list, with a fuel argument for structural recursion: one unit
of fuel is spent per step, and every step consumes at least one input
character, so fuel equal to the input length suffices for a non-empty
pattern. -/
def replaceFuel (pat rep : List Char) : Nat → List Char → List Char
  | _, [] => []
  | 0, s => s
  | fuel + 1, c :: rest =>
      if pat.isPrefixOf (c :: rest) then
        rep ++ replaceFuel pat rep fuel (rest.drop (pat.length - 1))
      else
        c :: replaceFuel pat rep fuel rest

/-- Python `s.replace(pat, rep)` for a non-empty pattern: replace every
occurrence, scanning left to right without overlap. -/
def pyReplace (s pat rep : String) : String :=
  String.mk (replaceFuel pat.data rep.data s.data.length s.data)

/-- Whether `pat` occurs as a prefix of some suffix of the list. -/
def containsAux (pat : List Char) : List Char → Bool
  | [] => pat.isEmpty
  | c :: rest => pat.isPrefixOf (c :: rest) || containsAux pat rest

/-- Python `pat in s` on strings: substring membership. -/
def pyContains (s pat : String) : Bool :=
  containsAux pat.data s.data

/-- Drop leading and trailing whitespace from a character list. -/
def trimList (cs : List Char) : List Char :=
  ((cs.dropWhile Char.isWhitespace).reverse.dropWhile Char.isWhitespace).reverse

/-- Python `s.strip()` (on the whitespace characters recognized by
`Char.isWhitespace`). -/
def pyStrip (s : String) : String :=
  String.mk (trimList s.data)

/-- `date_fields` from `load.py` line 64. -/
def date_fields : List String :=
  ["Tanggal Penetapan", "Tanggal Pengundangan", "Tanggal Berlaku"]

/-- `id_month_mapping` from `load.py` lines 65-78 (insertion order of the
Python dict, which is the iteration order of `.items()`). -/
def id_month_mapping : List (String × String) :=
  [("Januari", "January"),
   ("Februari", "February"),
   ("Maret", "March"),
   ("April", "April"),
   ("Mei", "May"),
   ("Juni", "June"),
   ("Juli", "July"),
   ("Agustus", "August"),
   ("September", "September"),
   ("Oktober", "October"),
   ("November", "November"),
   ("Desember", "December")]

/-- Lines 92-94 of `load.py`: for each mapping entry in order, if the
Indonesian month name occurs in the string, replace every occurrence
with the English name. -/
def replaceMonths (s : String) : String :=
  id_month_mapping.foldl
    (fun acc p => if pyContains acc p.1 then pyReplace acc p.1 p.2 else acc) s

/-- Lines 91-94 of `load.py`: strip surrounding whitespace, then
substitute the month names. -/
def normalizeDate (s : String) : String :=
  replaceMonths (pyStrip s)

/-- The body of the `for date_field in date_fields` loop (lines 81-99 of
`load.py`) acting on the metadata mapping for one recognized field:
absent field is a no-op; `None`, the empty string, and non-string values
are popped; a non-empty string is stripped, month-substituted, and
written back.  The `except` branch of the source is unreachable here
because string stripping and replacement never raise. -/
def processField (md : Dict) (f : String) : Dict :=
  match dget? md f with
  | none => md
  | some (PyVal.vstr s) =>
      if s = "" then dpop md f
      else dset md f (PyVal.vstr (normalizeDate s))
  | some _ => dpop md f

/-- The whole date-fixing loop over the three recognized fields, in
order, acting on a metadata mapping. -/
def processMeta (md : Dict) : Dict :=
  date_fields.foldl processField md

/-- `preprocess_document` (lines 59-101 of `load.py`), as the value the
call returns.  The result is `Except`-valued because the source can
raise a `TypeError` when the `metadata` entry is not a mapping: `f in m`
on a non-string, non-mapping `m` raises at once, and on a string `m` the
membership test is substring search, so the first recognized field
occurring in the string leads to the raising subscript
`processed_doc["metadata"][date_field]`. -/
def preprocess_document (doc : Dict) : Except String Dict :=
  match dget? doc "metadata" with
  | none => Except.ok doc
  | some (PyVal.vdict md) =>
      Except.ok (dset doc "metadata" (PyVal.vdict (processMeta md)))
  | some (PyVal.vstr s) =>
      if date_fields.any (fun f => pyContains s f) then
        Except.error "TypeError"
      else
        Except.ok doc
  | some _ => Except.error "TypeError"

/-- The state of the caller-owned `doc` after `preprocess_document doc`
returns or raises.  Line 61 of `load.py` takes a shallow copy
(`processed_doc = doc.copy()`), so `processed_doc["metadata"]` is the
very mapping object held by the input; every `pop` and item assignment
of the loop mutates it.  Hence on normal return the input holds exactly
the entries of the returned document (same top-level entries, shared and
mutated metadata), and when the source raises it does so before any
mutation, leaving the input untouched. -/
def input_after_preprocess (doc : Dict) : Dict :=
  match preprocess_document doc with
  | Except.ok d => d
  | Except.error _ => doc

/-! ## Bulk payload preparation (`prepare_bulk_data`, lines 217-231) -/

/-- Escaping applied by `json.dumps` to the characters that can occur in
the strings of this development: backslash, double quote and the common
control characters. -/
def jsonEscapeChar (c : Char) : List Char :=
  if c = '\\' then ['\\', '\\']
  else if c = '"' then ['\\', '"']
  else if c = '\n' then ['\\', 'n']
  else if c = '\t' then ['\\', 't']
  else if c = '\r' then ['\\', 'r']
  else [c]

/-- See `jsonEscapeChar`; escaping applied characterwise. -/
def jsonEscape (s : String) : String :=
  String.mk (s.data.flatMap jsonEscapeChar)

mutual

/-- `json.dumps` on a `PyVal` (default separators). -/
def jsonDump : PyVal → String
  | PyVal.vstr s => "\"" ++ jsonEscape s ++ "\""
  | PyVal.vnone => "null"
  | PyVal.vint n => toString n
  | PyVal.vdict d => "\x7b" ++ jsonEntries d ++ "\x7d"

/-- The comma-separated `"key": value` entries of a dumped mapping. -/
def jsonEntries : List (String × PyVal) → String
  | [] => ""
  | [(k, v)] => "\"" ++ jsonEscape k ++ "\": " ++ jsonDump v
  | (k, v) :: rest =>
      "\"" ++ jsonEscape k ++ "\": " ++ jsonDump v ++ ", " ++ jsonEntries rest

end

mutual

/-- Python `str(v)`, as used by the f-string building the document id:
a string formats as itself, `None` as `None`, integers in decimal,
mappings via their `repr`. -/
def pyStr : PyVal → String
  | PyVal.vstr s => s
  | PyVal.vnone => "None"
  | PyVal.vint n => toString n
  | PyVal.vdict d => "\x7b" ++ pyReprEntries d ++ "\x7d"

/-- Python `repr(v)` (strings quoted with single quotes; escaping inside
them is elided, which is faithful for quote-free strings). -/
def pyRepr : PyVal → String
  | PyVal.vstr s => "\x27" ++ s ++ "\x27"
  | PyVal.vnone => "None"
  | PyVal.vint n => toString n
  | PyVal.vdict d => "\x7b" ++ pyReprEntries d ++ "\x7d"

/-- The comma-separated `key: value` entries of a mapping repr. -/
def pyReprEntries : List (String × PyVal) → String
  | [] => ""
  | [(k, v)] => "\x27" ++ k ++ "\x27: " ++ pyRepr v
  | (k, v) :: rest =>
      "\x27" ++ k ++ "\x27: " ++ pyRepr v ++ ", " ++ pyReprEntries rest

end

/-- `index_name` from `load.py` line 178. -/
def index_name : String := "peraturan_indonesia"

/-- Line 224 of `load.py`: the document id
`f"...Bentuk Singkat...doc...\x7d_...Nomor..._...Tahun..."` built from
three metadata fields with defaults. -/
def docId (md : Dict) : String :=
  pyStr ((dget? md "Bentuk Singkat").getD (PyVal.vstr "doc")) ++ "_" ++
    pyStr ((dget? md "Nomor").getD (PyVal.vstr "")) ++ "_" ++
    pyStr ((dget? md "Tahun").getD (PyVal.vstr ""))

/-- The unguarded subscript `processed_item["metadata"]` of line 224
followed by the `.get` attribute accesses: raises `KeyError` when the
key is absent and `AttributeError` when its value is not a mapping. -/
def metadataOf (processed : Dict) : Except String Dict :=
  match dget? processed "metadata" with
  | some (PyVal.vdict md) => Except.ok md
  | some _ => Except.error "AttributeError"
  | none => Except.error "KeyError"

/-- Line 227 of `load.py`: the bulk action header for one document. -/
def actionLine (doc_id : String) : String :=
  jsonDump (PyVal.vdict
    [("index", PyVal.vdict
      [("_index", PyVal.vstr index_name), ("_id", PyVal.vstr doc_id)])])

/-- The loop body of `prepare_bulk_data` (lines 219-228): per document,
preprocess, compute the id from the processed metadata, and emit the
action line followed by the document body line.  The first document on
which the source raises aborts the whole computation. -/
def bulkLines : List Dict → Except String (List String)
  | [] => Except.ok []
  | item :: rest => do
      let processed ← preprocess_document item
      let md ← metadataOf processed
      let tail ← bulkLines rest
      Except.ok (actionLine (docId md) :: jsonDump (PyVal.vdict processed) :: tail)

/-- Python `sep.join(parts)`. -/
def joinWith (sep : String) : List String → String
  | [] => ""
  | [x] => x
  | x :: rest => x ++ sep ++ joinWith sep rest

/-- `prepare_bulk_data` (lines 217-231): newline-joined action/document
lines with a trailing newline, or the exception the loop raised. -/
def prepare_bulk_data (batch : List Dict) : Except String String :=
  (bulkLines batch).map (fun ls => joinWith "\n" ls ++ "\n")

/-! ## Batching and the success-count loop (lines 234-308) -/

/-- `batch_size` from `load.py` line 235. -/
def batch_size : Nat := 50

/-- Python `l[i:i+n]` for in-range nonnegative bounds. -/
def pySlice (l : List α) (i n : Nat) : List α :=
  (l.drop i).take n

/-- The number of iterations of `range(0, total, bs)` for `bs > 0`
(also the displayed batch count `(total_docs+batch_size-1)//batch_size`
of line 266). -/
def numBatches (total bs : Nat) : Nat :=
  (total + bs - 1) / bs

/-- The loop indices `range(0, total, bs)` of line 241. -/
def batchStarts (total bs : Nat) : List Nat :=
  List.range' 0 (numBatches total bs) bs

/-- The successive batches `items[i:i+batch_size]` of line 242, in
submission order. -/
def batches (l : List α) (bs : Nat) : List (List α) :=
  (batchStarts l.length bs).map (fun i => pySlice l i bs)

/-- The environment behaviour of the one bulk `POST` of a batch: the
request raises, or returns a response with a status code, the top-level
`errors` flag of its JSON body, and the per-document entries of
`result["items"]`.  Each entry is abstracted to
`item.get("index", \x7b\x7d).get("status", ...)`: `some st` when a
status is present, `none` when the `index` object or its `status` is
missing. -/
inductive NetOutcome where
  | exn
  | resp (status : Nat) (errors : Bool) (items : List (Option Nat))

/-- Line 263: `item.get("index", \x7b\x7d).get("status", 500)`. -/
def itemStatus (o : Option Nat) : Nat :=
  o.getD 500

/-- Line 263: an item counts as failed when its (defaulted) status is at
least 400. -/
def isErrorItem (o : Option Nat) : Bool :=
  400 ≤ itemStatus o

/-- The contribution of one batch to `success_count` (the body of the
`try` of lines 243-308): 0 when `prepare_bulk_data` raises, when the
request raises, or when the status is not 200; the full batch length on
a 200 response with the `errors` flag unset; and
`len(batch) - len(error_items)` on a 200 response with `errors` set. -/
def batchContrib (batch : List Dict) (r : NetOutcome) : Int :=
  match prepare_bulk_data batch with
  | Except.error _ => 0
  | Except.ok _ =>
      match r with
      | NetOutcome.exn => 0
      | NetOutcome.resp status errors items =>
          if status = 200 then
            if errors then
              (batch.length : Int) - ((items.filter isErrorItem).length : Int)
            else
              (batch.length : Int)
          else 0

/-- The accumulation of the batch loop over a list of batches, the
first of which is batch number `j` (the source numbers batches by
`i//batch_size`).  `net` gives the network outcome of each batch
number. -/
def success_counts (B : List (List Dict)) (net : Nat → NetOutcome) (j : Nat) : Int :=
  match B with
  | [] => 0
  | b :: rest => batchContrib b (net j) + success_counts rest net (j + 1)

/-- The final value of `success_count` after the loop of lines 240-308
over the whole input collection. -/
def success_count (l : List Dict) (bs : Nat) (net : Nat → NetOutcome) : Int :=
  success_counts (batches l bs) net 0

/-- The value of `success_count` observed after the first `k` batches of
the loop. -/
def success_count_after (l : List Dict) (bs : Nat) (net : Nat → NetOutcome) (k : Nat) : Int :=
  success_counts ((batches l bs).take k) net 0

/-! ## Lemmas about the mapping operations -/

theorem dget?_dpop_self (d : Dict) (k : String) : dget? (dpop d k) k = none := by
  induction d with
  | nil => rfl
  | cons p rest ih =>
      obtain ⟨k2, v⟩ := p
      by_cases h : k2 = k
      · simpa [dpop, h] using ih
      · simpa [dpop, dget?, h] using ih

theorem dget?_dpop_ne (d : Dict) (k k2 : String) (h : k2 ≠ k) :
    dget? (dpop d k) k2 = dget? d k2 := by
  induction d with
  | nil => rfl
  | cons p rest ih =>
      obtain ⟨k3, v⟩ := p
      by_cases hp : k3 = k
      · have hp2 : k3 ≠ k2 := fun hc => h (hc ▸ hp)
        simpa [dpop, dget?, hp, hp2, Ne.symm h] using ih
      · by_cases hp2 : k3 = k2
        · simp [dpop, dget?, hp, hp2, h]
        · simpa [dpop, dget?, hp, hp2] using ih

theorem dget?_dsetReplace_self (d : Dict) (k : String) (v : PyVal)
    (h : (dget? d k).isSome) : dget? (dsetReplace d k v) k = some v := by
  induction d with
  | nil => simp [dget?] at h
  | cons p rest ih =>
      obtain ⟨k2, w⟩ := p
      by_cases hp : k2 = k
      · simp [dsetReplace, dget?, hp]
      · have h2 : (dget? rest k).isSome := by simpa [dget?, hp] using h
        simpa [dsetReplace, dget?, hp] using ih h2

theorem dget?_dset_self (d : Dict) (k : String) (v : PyVal) :
    dget? (dset d k v) k = some v := by
  unfold dset
  by_cases hmem : (dget? d k).isSome
  · simpa [hmem] using dget?_dsetReplace_self d k v hmem
  · simp only [hmem, if_false]
    induction d with
    | nil => simp [dget?]
    | cons p rest ih =>
        obtain ⟨k2, w⟩ := p
        by_cases hp : k2 = k
        · simp [dget?, hp] at hmem
        · have hmem2 : ¬ (dget? rest k).isSome := by
            simpa [dget?, hp] using hmem
          simpa [dget?, hp] using ih hmem2

theorem dget?_dsetReplace_ne (d : Dict) (k k2 : String) (v : PyVal) (h : k2 ≠ k) :
    dget? (dsetReplace d k v) k2 = dget? d k2 := by
  induction d with
  | nil => rfl
  | cons p rest ih =>
      obtain ⟨k3, w⟩ := p
      by_cases hp : k3 = k
      · have hp2 : k3 ≠ k2 := fun hc => h (hc ▸ hp)
        simpa [dsetReplace, dget?, hp, hp2, Ne.symm h] using ih
      · by_cases hp2 : k3 = k2
        · simp [dsetReplace, dget?, hp, hp2, h]
        · simpa [dsetReplace, dget?, hp, hp2] using ih

theorem dget?_dset_ne (d : Dict) (k k2 : String) (v : PyVal) (h : k2 ≠ k) :
    dget? (dset d k v) k2 = dget? d k2 := by
  unfold dset
  by_cases hmem : (dget? d k).isSome
  · simpa [hmem] using dget?_dsetReplace_ne d k k2 v h
  · simp only [hmem, if_false]
    induction d with
    | nil => simp [dget?, Ne.symm h]
    | cons p rest ih =>
        obtain ⟨k3, w⟩ := p
        by_cases hp : k3 = k
        · simp [dget?, hp] at hmem
        · have hmem2 : ¬ (dget? rest k).isSome := by
            simpa [dget?, hp] using hmem
          by_cases hp2 : k3 = k2
          · simp [dget?, hp2]
          · simpa [dget?, hp2] using ih hmem2

theorem dsetReplace_map_fst (d : Dict) (k : String) (v : PyVal) :
    (dsetReplace d k v).map Prod.fst = d.map Prod.fst := by
  induction d with
  | nil => rfl
  | cons p rest ih =>
      obtain ⟨k2, w⟩ := p
      by_cases hp : k2 = k
      · simpa [dsetReplace, hp] using ih
      · simpa [dsetReplace, hp] using ih

theorem dset_map_fst (d : Dict) (k : String) (v : PyVal)
    (h : (dget? d k).isSome) :
    (dset d k v).map Prod.fst = d.map Prod.fst := by
  unfold dset
  simpa [h] using dsetReplace_map_fst d k v

/-! ## Lemmas about the normalizer -/

theorem processField_absent (md : Dict) (f : String) (h : dget? md f = none) :
    processField md f = md := by
  simp [processField, h]

theorem processField_dget_ne (md : Dict) (f g : String) (h : f ≠ g) :
    dget? (processField md g) f = dget? md f := by
  unfold processField
  cases hv : dget? md g with
  | none => rfl
  | some v =>
      cases v with
      | vstr s =>
          by_cases hs : s = ""
          · simp [hs, dget?_dpop_ne md g f h]
          · simp [hs, dget?_dset_ne md g f _ h]
      | vnone => simp [dget?_dpop_ne md g f h]
      | vint n => simp [dget?_dpop_ne md g f h]
      | vdict d => simp [dget?_dpop_ne md g f h]

theorem processField_dget_none (md : Dict) (f g : String) (h : dget? md f = none) :
    dget? (processField md g) f = none := by
  by_cases hfg : f = g
  · subst hfg
    rw [processField_absent md f h]
    exact h
  · rw [processField_dget_ne md f g hfg]
    exact h

theorem processField_dget_str (md : Dict) (f s : String)
    (h : dget? md f = some (PyVal.vstr s)) (hs : s ≠ "") :
    dget? (processField md f) f = some (PyVal.vstr (normalizeDate s)) := by
  simp [processField, h, hs, dget?_dset_self]

theorem processField_dget_drop (md : Dict) (f : String) (v : PyVal)
    (h : dget? md f = some v) (hv : ∀ s, s ≠ "" → v ≠ PyVal.vstr s) :
    dget? (processField md f) f = none := by
  unfold processField
  rw [h]
  cases v with
  | vstr s =>
      by_cases hs : s = ""
      · simp [hs, dget?_dpop_self]
      · exact absurd rfl (hv s hs)
  | vnone => simp [dget?_dpop_self]
  | vint n => simp [dget?_dpop_self]
  | vdict d => simp [dget?_dpop_self]

theorem processMeta_eq (md : Dict) :
    processMeta md =
      processField
        (processField (processField md "Tanggal Penetapan") "Tanggal Pengundangan")
        "Tanggal Berlaku" := rfl

theorem processMeta_dget_none (md : Dict) (f : String)
    (h : dget? md f = none) : dget? (processMeta md) f = none := by
  rw [processMeta_eq]
  exact processField_dget_none _ _ _
    (processField_dget_none _ _ _ (processField_dget_none _ _ _ h))

theorem processMeta_dget_str (md : Dict) (f s : String) (hf : f ∈ date_fields)
    (h : dget? md f = some (PyVal.vstr s)) (hs : s ≠ "") :
    dget? (processMeta md) f = some (PyVal.vstr (normalizeDate s)) := by
  rw [processMeta_eq]
  simp only [date_fields, List.mem_cons, List.mem_singleton, List.not_mem_nil,
    or_false] at hf
  rcases hf with rfl | rfl | rfl
  · rw [processField_dget_ne _ _ _ (by decide), processField_dget_ne _ _ _ (by decide)]
    exact processField_dget_str md _ s h hs
  · rw [processField_dget_ne _ _ _ (by decide)]
    apply processField_dget_str _ _ s _ hs
    rw [processField_dget_ne _ _ _ (by decide)]
    exact h
  · apply processField_dget_str _ _ s _ hs
    rw [processField_dget_ne _ _ _ (by decide), processField_dget_ne _ _ _ (by decide)]
    exact h

theorem processMeta_dget_drop (md : Dict) (f : String) (v : PyVal)
    (hf : f ∈ date_fields) (h : dget? md f = some v)
    (hv : ∀ s, s ≠ "" → v ≠ PyVal.vstr s) :
    dget? (processMeta md) f = none := by
  rw [processMeta_eq]
  simp only [date_fields, List.mem_cons, List.mem_singleton, List.not_mem_nil,
    or_false] at hf
  rcases hf with rfl | rfl | rfl
  · exact processField_dget_none _ _ _
      (processField_dget_none _ _ _ (processField_dget_drop md _ v h hv))
  · apply processField_dget_none
    apply processField_dget_drop _ _ v _ hv
    rw [processField_dget_ne _ _ _ (by decide)]
    exact h
  · apply processField_dget_drop _ _ v _ hv
    rw [processField_dget_ne _ _ _ (by decide), processField_dget_ne _ _ _ (by decide)]
    exact h

theorem processMeta_surviving (md : Dict) (f : String) (w : PyVal)
    (hf : f ∈ date_fields) (h : dget? (processMeta md) f = some w) :
    ∃ s, dget? md f = some (PyVal.vstr s) ∧ s ≠ "" ∧
      w = PyVal.vstr (normalizeDate s) := by
  cases hv : dget? md f with
  | none => rw [processMeta_dget_none md f hv] at h; exact absurd h (by simp)
  | some v =>
      cases v with
      | vstr s =>
          by_cases hs : s = ""
          · subst hs
            rw [processMeta_dget_drop md f _ hf hv (by intro t ht hc; simp at hc; exact ht hc.symm)] at h
            exact absurd h (by simp)
          · refine ⟨s, rfl, hs, ?_⟩
            rw [processMeta_dget_str md f s hf hv hs] at h
            exact (Option.some.injEq _ _ ▸ h).symm
      | vnone =>
          rw [processMeta_dget_drop md f _ hf hv (by intro t ht hc; cases hc)] at h
          exact absurd h (by simp)
      | vint n =>
          rw [processMeta_dget_drop md f _ hf hv (by intro t ht hc; cases hc)] at h
          exact absurd h (by simp)
      | vdict d =>
          rw [processMeta_dget_drop md f _ hf hv (by intro t ht hc; cases hc)] at h
          exact absurd h (by simp)

/-! ## Lemmas about `preprocess_document` -/

theorem preprocess_no_meta (doc : Dict) (h : dget? doc "metadata" = none) :
    preprocess_document doc = Except.ok doc := by
  simp [preprocess_document, h]

theorem preprocess_meta_dict (doc : Dict) (md : Dict)
    (h : dget? doc "metadata" = some (PyVal.vdict md)) :
    preprocess_document doc =
      Except.ok (dset doc "metadata" (PyVal.vdict (processMeta md))) := by
  simp [preprocess_document, h]

/-! ## Lemmas about batching -/

theorem numBatches_succ (n bs : Nat) (hbs : 0 < bs) (hn : 1 ≤ n) :
    numBatches n bs = numBatches (n - bs) bs + 1 := by
  unfold numBatches
  rcases le_or_lt n bs with hle | hlt
  · have e1 : n + bs - 1 = (n - 1) + bs := by omega
    have e2 : n - bs = 0 := by omega
    rw [e1, Nat.add_div_right _ hbs, e2]
    have h1 : (n - 1) / bs = 0 := Nat.div_eq_of_lt (by omega)
    have h0 : (0 + bs - 1) / bs = 0 := Nat.div_eq_of_lt (by omega)
    omega
  · have e1 : n + bs - 1 = (n - 1) + bs := by omega
    have e2 : n - bs + bs - 1 = (n - bs - 1) + bs := by omega
    rw [e1, e2, Nat.add_div_right _ hbs, Nat.add_div_right _ hbs]
    have e3 : n - 1 = (n - bs - 1) + bs := by omega
    rw [e3, Nat.add_div_right _ hbs]

theorem batches_nil {α : Type _} (bs : Nat) (hbs : 0 < bs) :
    batches ([] : List α) bs = [] := by
  unfold batches batchStarts numBatches
  simp [Nat.div_eq_of_lt (show bs - 1 < bs by omega)]

theorem range'_map_slice {α : Type _} (l : List α) (bs : Nat) :
    ∀ (m s : Nat),
      (List.range' (s + bs) m bs).map (fun i => pySlice l i bs) =
        (List.range' s m bs).map (fun i => pySlice (l.drop bs) i bs) := by
  intro m
  induction m with
  | zero => intro s; rfl
  | succ m ih =>
      intro s
      rw [List.range'_succ, List.range'_succ, List.map_cons, List.map_cons]
      congr 1
      · unfold pySlice
        rw [List.drop_drop, Nat.add_comm bs s]
      · exact ih (s + bs)

theorem batches_cons {α : Type _} (l : List α) (bs : Nat) (hbs : 0 < bs)
    (hl : l ≠ []) :
    batches l bs = l.take bs :: batches (l.drop bs) bs := by
  have hn : 1 ≤ l.length := List.length_pos.mpr hl
  unfold batches batchStarts
  rw [List.length_drop, numBatches_succ l.length bs hbs hn, List.range'_succ,
    List.map_cons]
  congr 1
  exact range'_map_slice l bs _ 0

theorem batches_flatten_aux {α : Type _} (bs : Nat) (hbs : 0 < bs) :
    ∀ (n : Nat) (l : List α), l.length ≤ n → (batches l bs).flatten = l := by
  intro n
  induction n with
  | zero =>
      intro l h
      have hl : l = [] := List.length_eq_zero.mp (Nat.le_zero.mp h)
      subst hl
      rw [batches_nil bs hbs]
      rfl
  | succ n ih =>
      intro l h
      by_cases hl : l = []
      · subst hl
        rw [batches_nil bs hbs]
        rfl
      · have hpos : 0 < l.length := List.length_pos.mpr hl
        rw [batches_cons l bs hbs hl, List.flatten_cons,
          ih (l.drop bs) (by rw [List.length_drop]; omega)]
        exact List.take_append_drop bs l

theorem batches_flatten {α : Type _} (l : List α) (bs : Nat) (hbs : 0 < bs) :
    (batches l bs).flatten = l :=
  batches_flatten_aux bs hbs l.length l le_rfl

theorem batches_size_aux {α : Type _} (bs : Nat) (hbs : 0 < bs) :
    ∀ (n : Nat) (l : List α) (i : Nat), l.length ≤ n →
      i + 1 < (batches l bs).length → ((batches l bs).getD i []).length = bs := by
  intro n
  induction n with
  | zero =>
      intro l i h hi
      have hl : l = [] := List.length_eq_zero.mp (Nat.le_zero.mp h)
      subst hl
      rw [batches_nil bs hbs] at hi
      simp at hi
  | succ n ih =>
      intro l i h hi
      by_cases hl : l = []
      · subst hl
        rw [batches_nil bs hbs] at hi
        simp at hi
      · have hpos : 0 < l.length := List.length_pos.mpr hl
        rw [batches_cons l bs hbs hl] at hi ⊢
        cases i with
        | zero =>
            have hne : batches (l.drop bs) bs ≠ [] := by
              intro hc
              rw [List.length_cons, hc] at hi
              simp at hi
            have hdrop : l.drop bs ≠ [] := by
              intro hc
              exact hne (by rw [hc, batches_nil bs hbs])
            have hlen : bs < l.length := by
              have hp := List.length_pos.mpr hdrop
              rw [List.length_drop] at hp
              omega
            rw [List.getD_cons_zero, List.length_take]
            omega
        | succ i =>
            rw [List.getD_cons_succ]
            apply ih (l.drop bs) i (by rw [List.length_drop]; omega)
            rw [List.length_cons] at hi
            omega

theorem batches_size_of_not_last {α : Type _} (l : List α) (bs : Nat)
    (hbs : 0 < bs) (i : Nat) (hi : i + 1 < (batches l bs).length) :
    ((batches l bs).getD i []).length = bs :=
  batches_size_aux bs hbs l.length l i le_rfl hi

theorem batches_size_le {α : Type _} (l : List α) (bs : Nat) (b : List α)
    (hb : b ∈ batches l bs) : b.length ≤ bs := by
  unfold batches at hb
  rw [List.mem_map] at hb
  obtain ⟨i, _, rfl⟩ := hb
  unfold pySlice
  exact List.length_take_le _ _

/-! ## Lemmas about the success-count loop -/

theorem batchContrib_le (b : List Dict) (r : NetOutcome) :
    batchContrib b r ≤ (b.length : Int) := by
  cases hp : prepare_bulk_data b with
  | error e => simp [batchContrib, hp]
  | ok s =>
      cases r with
      | exn => simp [batchContrib, hp]
      | resp st errors items =>
          by_cases h200 : st = 200
          · cases errors
            · simp [batchContrib, hp, h200]
            · simp only [batchContrib, hp, h200, if_true]
              omega
          · simp [batchContrib, hp, h200]

theorem success_counts_le (net : Nat → NetOutcome) :
    ∀ (B : List (List Dict)) (j : Nat),
      success_counts B net j ≤ (B.map (fun b => (b.length : Int))).sum := by
  intro B
  induction B with
  | nil => intro j; simp [success_counts]
  | cons b rest ih =>
      intro j
      simp only [success_counts, List.map_cons, List.sum_cons]
      exact add_le_add (batchContrib_le b (net j)) (ih (j + 1))

theorem success_counts_append (net : Nat → NetOutcome) :
    ∀ (xs ys : List (List Dict)) (j : Nat),
      success_counts (xs ++ ys) net j =
        success_counts xs net j + success_counts ys net (j + xs.length) := by
  intro xs
  induction xs with
  | nil => intro ys j; simp [success_counts]
  | cons b rest ih =>
      intro ys j
      simp only [List.cons_append, success_counts, List.length_cons, List.append_eq]
      rw [ih ys (j + 1)]
      have heq : j + 1 + rest.length = j + (rest.length + 1) := by omega
      rw [heq, add_assoc]

theorem sum_batch_lengths (l : List Dict) (bs : Nat) (hbs : 0 < bs) :
    ((batches l bs).map (fun b => (b.length : Int))).sum = (l.length : Int) := by
  have h1 : ((batches l bs).map List.length).sum = l.length := by
    rw [← List.length_flatten, batches_flatten l bs hbs]
  calc ((batches l bs).map (fun b => (b.length : Int))).sum
      = (((batches l bs).map List.length).map (fun n : Nat => (n : Int))).sum := by
        rw [List.map_map]
        rfl
    _ = ((((batches l bs).map List.length).sum : Nat) : Int) :=
        (Nat.cast_list_sum _).symm
    _ = (l.length : Int) := by rw [h1]

theorem success_count_after_le (l : List Dict) (bs : Nat)
    (net : Nat → NetOutcome) (hbs : 0 < bs) (k : Nat) :
    success_count_after l bs net k ≤ (l.length : Int) := by
  unfold success_count_after
  refine le_trans (success_counts_le net _ 0) ?_
  rw [List.map_take]
  refine le_trans ?_ (le_of_eq (sum_batch_lengths l bs hbs))
  have hsplit :=
    List.sum_take_add_sum_drop ((batches l bs).map (fun b => (b.length : Int))) k
  have hnn : 0 ≤ (((batches l bs).map (fun b => (b.length : Int))).drop k).sum := by
    apply List.sum_nonneg
    intro x hx
    have hx2 := List.mem_of_mem_drop hx
    rw [List.mem_map] at hx2
    obtain ⟨b, _, rfl⟩ := hx2
    positivity
  omega

theorem success_counts_all_ok (net : Nat → NetOutcome) :
    ∀ (B : List (List Dict)) (j : Nat),
      (∀ i, i < B.length →
        (∃ s, prepare_bulk_data (B.getD i []) = Except.ok s) ∧
        (∃ its, net (j + i) = NetOutcome.resp 200 false its)) →
      success_counts B net j = (B.map (fun b => (b.length : Int))).sum := by
  intro B
  induction B with
  | nil => intro j h; simp [success_counts]
  | cons b rest ih =>
      intro j h
      obtain ⟨⟨s, hs⟩, ⟨its, hits⟩⟩ := h 0 (by simp)
      rw [List.getD_cons_zero] at hs
      have hj0 : j + 0 = j := by omega
      rw [hj0] at hits
      have hb : batchContrib b (net j) = (b.length : Int) := by
        simp [batchContrib, hs, hits]
      simp only [success_counts, List.map_cons, List.sum_cons, hb]
      congr 1
      apply ih (j + 1)
      intro i hi
      have h2 := h (i + 1) (by simpa using Nat.succ_lt_succ hi)
      rw [List.getD_cons_succ] at h2
      have heq : j + (i + 1) = j + 1 + i := by omega
      rw [heq] at h2
      exact h2

theorem success_count_after_succ (l : List Dict) (bs : Nat)
    (net : Nat → NetOutcome) (k : Nat) (hk : k < (batches l bs).length) :
    success_count_after l bs net (k + 1) =
      success_count_after l bs net k +
        batchContrib ((batches l bs).getD k []) (net k) := by
  unfold success_count_after
  rw [List.take_succ]
  have hget : (batches l bs)[k]? = some ((batches l bs).getD k []) := by
    rw [List.getElem?_eq_getElem hk, List.getD_eq_getElem _ _ hk]
  rw [hget, Option.toList_some, success_counts_append]
  have hlen : ((batches l bs).take k).length = k := by
    rw [List.length_take]
    omega
  rw [hlen]
  simp [success_counts, Nat.zero_add]

theorem success_count_split (l : List Dict) (bs : Nat)
    (net : Nat → NetOutcome) (k : Nat) (hk : k < (batches l bs).length) :
    success_count l bs net =
      success_count_after l bs net (k + 1) +
        success_counts ((batches l bs).drop (k + 1)) net (k + 1) := by
  unfold success_count success_count_after
  conv_lhs => rw [← List.take_append_drop (k + 1) (batches l bs)]
  rw [success_counts_append]
  have hlen : ((batches l bs).take (k + 1)).length = k + 1 := by
    rw [List.length_take]
    omega
  rw [hlen]
  simp [Nat.zero_add]

/-! ## Lemmas about `prepare_bulk_data` on records without metadata -/

theorem bulkLines_error_of_no_meta (batch : List Dict) (item : Dict)
    (hmem : item ∈ batch) (hno : dget? item "metadata" = none) :
    ∃ e, bulkLines batch = Except.error e := by
  induction batch with
  | nil => cases hmem
  | cons b rest ih =>
      rcases List.mem_cons.mp hmem with rfl | hmem2
      · exact ⟨"KeyError",
          by simp [bulkLines, preprocess_no_meta item hno, metadataOf, hno,
            Bind.bind, Except.bind, Monad.toBind, Except.instMonad]⟩
      · cases hp : preprocess_document b with
        | error e2 =>
            exact ⟨e2, by simp [bulkLines, hp, Bind.bind, Except.bind,
              Monad.toBind, Except.instMonad]⟩
        | ok d =>
            cases hmd : metadataOf d with
            | error e3 =>
                exact ⟨e3, by simp [bulkLines, hp, hmd, Bind.bind, Except.bind,
                  Monad.toBind, Except.instMonad]⟩
            | ok md =>
                obtain ⟨e, he⟩ := ih hmem2
                exact ⟨e, by simp [bulkLines, hp, hmd, he, Bind.bind, Except.bind,
                  Monad.toBind, Except.instMonad]⟩

theorem prepare_error_of_no_meta (batch : List Dict) (item : Dict)
    (hmem : item ∈ batch) (hno : dget? item "metadata" = none) :
    ∃ e, prepare_bulk_data batch = Except.error e := by
  obtain ⟨e, he⟩ := bulkLines_error_of_no_meta batch item hmem hno
  exact ⟨e, by simp [prepare_bulk_data, he, Except.map]⟩

/-! ## Concrete records and network behaviours used as test inputs -/

/-- A record whose metadata holds one recognized date field in the
Indonesian locale format, with surrounding whitespace. -/
def docBerlaku : Dict :=
  [("metadata", PyVal.vdict [("Tanggal Berlaku", PyVal.vstr " 17 Agustus 1945 ")])]

/-- The record of the specification scenario:
`metadata["Tanggal Berlaku"] = "17 Agustus 1945"`. -/
def docScenario : Dict :=
  [("metadata", PyVal.vdict [("Tanggal Berlaku", PyVal.vstr "17 Agustus 1945")])]

/-- A record whose only recognized date field holds a whitespace-only
string. -/
def docBlank : Dict :=
  [("metadata", PyVal.vdict [("Tanggal Berlaku", PyVal.vstr "   ")])]

/-- A record exercising all the value shapes the normalizer inspects:
an empty-string date, a `None` date, a normal locale date, and an
unrelated non-string metadata entry. -/
def docMixed : Dict :=
  [("metadata", PyVal.vdict
      [("Tanggal Penetapan", PyVal.vstr ""),
       ("Tanggal Pengundangan", PyVal.vnone),
       ("Tanggal Berlaku", PyVal.vstr "1 Mei 2020"),
       ("Nomor", PyVal.vint 7)]),
   ("abstrak", PyVal.vstr "x")]

/-- A network that answers every bulk request with 200 and no errors. -/
def netOkAll : Nat → NetOutcome :=
  fun _ => NetOutcome.resp 200 false []

/-- A network that answers every bulk request with 200, the `errors`
flag set, and two failed items (a 404 and an item with no status). -/
def netTwoFail : Nat → NetOutcome :=
  fun _ => NetOutcome.resp 200 true [some 404, none]

/-- A network on which the first bulk request raises and every later one
succeeds. -/
def netExnFirst : Nat → NetOutcome :=
  fun j => if j = 0 then NetOutcome.exn else NetOutcome.resp 200 false []

/-! ## The claims -/

/-- Claim C1, counterexample to the claim as stated: `preprocess_document`
does mutate the input record in place through the shared nested metadata
mapping.  On a record whose metadata holds
`Tanggal Berlaku = " 17 Agustus 1945 "`, the input observed after the
call differs from the input before the call: its metadata entry now
holds the rewritten string `"17 August 1945"`. -/
theorem claim_c1_counterexample :
    input_after_preprocess docBerlaku ≠ docBerlaku ∧
    dget? (input_after_preprocess docBerlaku) "metadata" =
      some (PyVal.vdict [("Tanggal Berlaku", PyVal.vstr "17 August 1945")]) ∧
    dget? docBerlaku "metadata" =
      some (PyVal.vdict [("Tanggal Berlaku", PyVal.vstr " 17 Agustus 1945 ")]) := by
  refine ⟨?_, rfl, rfl⟩
  intro h
  have h2 : dget? (input_after_preprocess docBerlaku) "metadata" =
      dget? docBerlaku "metadata" := by rw [h]
  rw [show dget? (input_after_preprocess docBerlaku) "metadata" =
      some (PyVal.vdict [("Tanggal Berlaku", PyVal.vstr "17 August 1945")]) from rfl,
    show dget? docBerlaku "metadata" =
      some (PyVal.vdict [("Tanggal Berlaku", PyVal.vstr " 17 Agustus 1945 ")]) from rfl]
    at h2
  simp at h2

/-- Claim C1, amended: `preprocess_document` never mutates the top-level
structure of its input record — after the call the input holds exactly
the same keys in the same order, and every entry other than `metadata`
is unchanged — but the nested `metadata` mapping, being shared by the
shallow copy, may be rewritten in place. -/
theorem claim_c1_amended (doc : Dict) :
    (input_after_preprocess doc).map Prod.fst = doc.map Prod.fst ∧
    ∀ k, k ≠ "metadata" → dget? (input_after_preprocess doc) k = dget? doc k := by
  unfold input_after_preprocess
  cases hm : dget? doc "metadata" with
  | none =>
      rw [preprocess_no_meta doc hm]
      exact ⟨rfl, fun k _ => rfl⟩
  | some v =>
      cases v with
      | vdict md =>
          rw [preprocess_meta_dict doc md hm]
          constructor
          · exact dset_map_fst doc "metadata" _ (by rw [hm]; rfl)
          · intro k hk
            exact dget?_dset_ne doc "metadata" k _ hk
      | vstr s =>
          rw [show preprocess_document doc =
              (if date_fields.any (fun f => pyContains s f) then
                Except.error "TypeError" else Except.ok doc) from by
            simp [preprocess_document, hm]]
          by_cases hc : date_fields.any (fun f => pyContains s f)
          · rw [if_pos hc]
            exact ⟨rfl, fun k _ => rfl⟩
          · rw [if_neg hc]
            exact ⟨rfl, fun k _ => rfl⟩
      | vnone =>
          rw [show preprocess_document doc = Except.error "TypeError" from by
            simp [preprocess_document, hm]]
          exact ⟨rfl, fun k _ => rfl⟩
      | vint n =>
          rw [show preprocess_document doc = Except.error "TypeError" from by
            simp [preprocess_document, hm]]
          exact ⟨rfl, fun k _ => rfl⟩

/-- Claim C1, witness for the amended claim at a concrete record. -/
theorem claim_c1_amended_witness :
    (input_after_preprocess docBerlaku).map Prod.fst = docBerlaku.map Prod.fst ∧
    dget? (input_after_preprocess docBerlaku) "abstrak" =
      dget? docBerlaku "abstrak" :=
  ⟨(claim_c1_amended docBerlaku).1,
   (claim_c1_amended docBerlaku).2 "abstrak" (by decide)⟩

/-- Claim C2: throughout the batch loop the running `success_count`
never exceeds the length of the input collection, and when every batch
is prepared without an exception and answered with status 200 and the
`errors` flag unset, the final `success_count` equals that length. -/
theorem claim_c2 (l : List Dict) (bs : Nat) (net : Nat → NetOutcome)
    (hbs : 0 < bs) :
    (∀ k, success_count_after l bs net k ≤ (l.length : Int)) ∧
    ((∀ j, j < (batches l bs).length →
        (∃ s, prepare_bulk_data ((batches l bs).getD j []) = Except.ok s) ∧
        (∃ its, net j = NetOutcome.resp 200 false its)) →
      success_count l bs net = (l.length : Int)) := by
  constructor
  · intro k
    exact success_count_after_le l bs net hbs k
  · intro h
    unfold success_count
    rw [success_counts_all_ok net (batches l bs) 0 ?_, sum_batch_lengths l bs hbs]
    intro i hi
    have h2 := h i hi
    rw [Nat.zero_add]
    exact h2

/-- Claim C2, witness: three well-formed records in one batch, all
answered with 200 and no errors. -/
theorem claim_c2_witness :
    success_count_after (List.replicate 3 docBerlaku) 50 netOkAll 1 ≤
      ((List.replicate 3 docBerlaku).length : Int) ∧
    success_count (List.replicate 3 docBerlaku) 50 netOkAll =
      ((List.replicate 3 docBerlaku).length : Int) := by
  refine ⟨(claim_c2 (List.replicate 3 docBerlaku) 50 netOkAll (by decide)).1 1,
    (claim_c2 (List.replicate 3 docBerlaku) 50 netOkAll (by decide)).2 ?_⟩
  intro j hj
  have hlen : (batches (List.replicate 3 docBerlaku) 50).length = 1 := by decide
  have hj0 : j = 0 := by omega
  subst hj0
  exact ⟨⟨_, rfl⟩, ⟨[], rfl⟩⟩

/-- Claim C3: on a 200 response with the `errors` flag set, the batch
contributes exactly its size minus the number of items whose defaulted
status is at least 400 (an item without a status defaults to 500 and so
counts as a failure), and the running count increases by exactly that
amount; in particular a 50-document batch with exactly 2 such failing
items increments `success_count` by exactly 48. -/
theorem claim_c3 (l : List Dict) (bs : Nat) (net : Nat → NetOutcome) (k : Nat)
    (items : List (Option Nat))
    (hk : k < (batches l bs).length)
    (hprep : ∃ s, prepare_bulk_data ((batches l bs).getD k []) = Except.ok s)
    (hnet : net k = NetOutcome.resp 200 true items) :
    batchContrib ((batches l bs).getD k []) (net k) =
      (((batches l bs).getD k []).length : Int) -
        ((items.filter isErrorItem).length : Int) ∧
    success_count_after l bs net (k + 1) =
      success_count_after l bs net k +
        ((((batches l bs).getD k []).length : Int) -
          ((items.filter isErrorItem).length : Int)) ∧
    (((batches l bs).getD k []).length = 50 →
      (items.filter isErrorItem).length = 2 →
      success_count_after l bs net (k + 1) =
        success_count_after l bs net k + 48) := by
  obtain ⟨s, hs⟩ := hprep
  have hc : batchContrib ((batches l bs).getD k []) (net k) =
      (((batches l bs).getD k []).length : Int) -
        ((items.filter isErrorItem).length : Int) := by
    unfold batchContrib
    rw [hs, hnet]
    rfl
  refine ⟨hc, ?_, ?_⟩
  · rw [success_count_after_succ l bs net k hk, hc]
  · intro h50 h2
    rw [success_count_after_succ l bs net k hk, hc, h50, h2]
    norm_num

/-- Claim C3, witness: a 50-document batch answered with 200, `errors`
set, and two failing items increments the count by exactly 48. -/
theorem claim_c3_witness :
    success_count_after (List.replicate 50 docBerlaku) 50 netTwoFail 1 =
      success_count_after (List.replicate 50 docBerlaku) 50 netTwoFail 0 + 48 := by
  have h := claim_c3 (List.replicate 50 docBerlaku) 50 netTwoFail 0
    [some 404, none] (by decide) ⟨_, rfl⟩ rfl
  exact h.2.2 (by decide) (by decide)

/-- Claim C4: on a transport-level failure (the request raised, or a
response with a status other than 200), the failing batch contributes
nothing to `success_count`, and the loop still accounts for every later
batch: the final count is the count after the failing batch plus the
contributions of all remaining batches. -/
theorem claim_c4 (l : List Dict) (bs : Nat) (net : Nat → NetOutcome) (k : Nat)
    (hk : k < (batches l bs).length)
    (hfail : net k = NetOutcome.exn ∨
      ∃ st errors items, net k = NetOutcome.resp st errors items ∧ st ≠ 200) :
    batchContrib ((batches l bs).getD k []) (net k) = 0 ∧
    success_count_after l bs net (k + 1) = success_count_after l bs net k ∧
    success_count l bs net =
      success_count_after l bs net (k + 1) +
        success_counts ((batches l bs).drop (k + 1)) net (k + 1) := by
  have hc : batchContrib ((batches l bs).getD k []) (net k) = 0 := by
    rcases hfail with h | ⟨st, errors, items, h, hst⟩
    · unfold batchContrib
      rw [h]
      cases hp : prepare_bulk_data ((batches l bs).getD k []) <;> rfl
    · unfold batchContrib
      rw [h]
      cases hp : prepare_bulk_data ((batches l bs).getD k [])
      · rfl
      · show (if st = 200 then
            if errors = true then
              (((batches l bs).getD k []).length : Int) -
                ((items.filter isErrorItem).length : Int)
            else (((batches l bs).getD k []).length : Int)
          else 0) = 0
        rw [if_neg hst]
  exact ⟨hc,
    by rw [success_count_after_succ l bs net k hk, hc, add_zero],
    success_count_split l bs net k hk⟩

/-- Claim C4, witness: two single-record batches; the first request
raises, the second succeeds, so the final count is 1 and the failing
batch added nothing. -/
theorem claim_c4_witness :
    success_count_after (List.replicate 2 docBerlaku) 1 netExnFirst 1 =
      success_count_after (List.replicate 2 docBerlaku) 1 netExnFirst 0 ∧
    success_count (List.replicate 2 docBerlaku) 1 netExnFirst = 1 := by
  have h := claim_c4 (List.replicate 2 docBerlaku) 1 netExnFirst 0
    (by decide) (Or.inl rfl)
  exact ⟨h.2.1, by decide⟩

/-- Claim C5: the loop partitions the input into the consecutive slices
`items[i:i+bs]`: concatenating all batches in submission order gives
back the input with no gaps, duplicates or reordering; every batch but
possibly the last has length exactly `bs` (and none exceeds `bs`); and
an input of 120 records with batch size 50 yields exactly the batch
sizes 50, 50, 20 in that order. -/
theorem claim_c5 {α : Type _} (l : List α) (bs : Nat) (hbs : 0 < bs) :
    (batches l bs).flatten = l ∧
    (∀ i, i + 1 < (batches l bs).length → ((batches l bs).getD i []).length = bs) ∧
    (∀ b ∈ batches l bs, b.length ≤ bs) ∧
    (batches (List.range 120) 50).map List.length = [50, 50, 20] :=
  ⟨batches_flatten l bs hbs,
   fun i hi => batches_size_of_not_last l bs hbs i hi,
   fun b hb => batches_size_le l bs b hb,
   by decide⟩

/-- Claim C5, witness at the 120-record scenario input. -/
theorem claim_c5_witness :
    (batches (List.range 120) 50).flatten = List.range 120 ∧
    (batches (List.range 120) 50).length = 3 :=
  ⟨(claim_c5 (List.range 120) 50 (by decide)).1, by decide⟩

/-- Claim C6: for every record whose `metadata`, when present, is a
mapping, `preprocess_document` returns normally (never raises), and in
the result every recognized date field is either removed or rewritten to
the stripped, month-substituted form of its original string value. -/
theorem claim_c6 (doc : Dict)
    (hmeta : ∀ v, dget? doc "metadata" = some v → ∃ md, v = PyVal.vdict md) :
    (∃ d, preprocess_document doc = Except.ok d) ∧
    (∀ md, dget? doc "metadata" = some (PyVal.vdict md) →
      ∀ f ∈ date_fields,
        dget? (processMeta md) f = none ∨
        ∃ s, dget? md f = some (PyVal.vstr s) ∧ s ≠ "" ∧
          dget? (processMeta md) f = some (PyVal.vstr (normalizeDate s))) := by
  constructor
  · cases hm : dget? doc "metadata" with
    | none => exact ⟨doc, preprocess_no_meta doc hm⟩
    | some v =>
        obtain ⟨md, rfl⟩ := hmeta v hm
        exact ⟨_, preprocess_meta_dict doc md hm⟩
  · intro md _ f hf
    cases hv : dget? md f with
    | none => exact Or.inl (processMeta_dget_none md f hv)
    | some v =>
        cases v with
        | vstr s =>
            by_cases hs : s = ""
            · subst hs
              exact Or.inl (processMeta_dget_drop md f _ hf hv
                (by intro t ht hc; simp at hc; exact ht hc.symm))
            · exact Or.inr ⟨s, rfl, hs, processMeta_dget_str md f s hf hv hs⟩
        | vnone =>
            exact Or.inl (processMeta_dget_drop md f _ hf hv
              (by intro t ht hc; cases hc))
        | vint n =>
            exact Or.inl (processMeta_dget_drop md f _ hf hv
              (by intro t ht hc; cases hc))
        | vdict d =>
            exact Or.inl (processMeta_dget_drop md f _ hf hv
              (by intro t ht hc; cases hc))

/-- Claim C6, witness: a record mixing an empty-string date, a `None`
date, a normal locale date and a non-string metadata entry is processed
without raising. -/
theorem claim_c6_witness :
    ∃ d, preprocess_document docMixed = Except.ok d :=
  (claim_c6 docMixed (by
    intro v h
    rw [show dget? docMixed "metadata" = some (PyVal.vdict
        [("Tanggal Penetapan", PyVal.vstr ""),
         ("Tanggal Pengundangan", PyVal.vnone),
         ("Tanggal Berlaku", PyVal.vstr "1 Mei 2020"),
         ("Nomor", PyVal.vint 7)]) from rfl] at h
    cases h
    exact ⟨_, rfl⟩)).1

/-- Claim C7: a recognized date field holding a non-empty string `s` is
normalized to exactly `normalizeDate s`: the string stripped of
surrounding whitespace with every occurrence of each of the twelve
Indonesian month names replaced by its English counterpart and every
other character left untouched. -/
theorem claim_c7 (doc : Dict) (md : Dict) (f s : String)
    (hmeta : dget? doc "metadata" = some (PyVal.vdict md))
    (hf : f ∈ date_fields)
    (hval : dget? md f = some (PyVal.vstr s)) (hs : s ≠ "") :
    ∃ md2, preprocess_document doc =
        Except.ok (dset doc "metadata" (PyVal.vdict md2)) ∧
      dget? md2 f = some (PyVal.vstr (normalizeDate s)) :=
  ⟨processMeta md, preprocess_meta_dict doc md hmeta,
    processMeta_dget_str md f s hf hval hs⟩

/-- Claim C7, witness for the scenario of the specification:
`Tanggal Berlaku = "17 Agustus 1945"` normalizes to
`"17 August 1945"`. -/
theorem claim_c7_witness :
    ∃ md2, preprocess_document docScenario =
        Except.ok (dset docScenario "metadata" (PyVal.vdict md2)) ∧
      dget? md2 "Tanggal Berlaku" = some (PyVal.vstr "17 August 1945") := by
  have h := claim_c7 docScenario
    [("Tanggal Berlaku", PyVal.vstr "17 Agustus 1945")]
    "Tanggal Berlaku" "17 Agustus 1945" rfl (by decide) rfl (by decide)
  rw [show normalizeDate "17 Agustus 1945" = "17 August 1945" from rfl] at h
  exact h

/-- Claim C8, counterexample to the claim as stated: a whitespace-only
date string is a non-empty string, so it is not dropped; it survives
normalization as the empty string, contradicting the claim that no
surviving date field is the empty string. -/
theorem claim_c8_counterexample :
    preprocess_document docBlank =
      Except.ok (dset docBlank "metadata"
        (PyVal.vdict [("Tanggal Berlaku", PyVal.vstr "")])) ∧
    dget? [("Tanggal Berlaku", PyVal.vstr "")] "Tanggal Berlaku" =
      some (PyVal.vstr "") :=
  ⟨rfl, rfl⟩

/-- Claim C8, amended: every recognized date field surviving
normalization holds the stripped, month-substituted form of an original
value that was a non-empty string; `None`, empty-string and non-string
values are removed, but a whitespace-only string survives as the empty
string. -/
theorem claim_c8_amended (doc : Dict) (md : Dict) (f : String) (w : PyVal)
    (hmeta : dget? doc "metadata" = some (PyVal.vdict md))
    (hf : f ∈ date_fields)
    (hw : dget? (processMeta md) f = some w) :
    ∃ s, dget? md f = some (PyVal.vstr s) ∧ s ≠ "" ∧
      w = PyVal.vstr (normalizeDate s) ∧
      preprocess_document doc =
        Except.ok (dset doc "metadata" (PyVal.vdict (processMeta md))) := by
  obtain ⟨s, h1, h2, h3⟩ := processMeta_surviving md f w hf hw
  exact ⟨s, h1, h2, h3, preprocess_meta_dict doc md hmeta⟩

/-- Claim C8, witness for the amended claim at the whitespace-only
record: the surviving value is `normalizeDate "   "`, the empty
string. -/
theorem claim_c8_witness :
    ∃ s, dget? [("Tanggal Berlaku", PyVal.vstr "   ")] "Tanggal Berlaku" =
        some (PyVal.vstr s) ∧ s ≠ "" ∧
      (PyVal.vstr "" : PyVal) = PyVal.vstr (normalizeDate s) ∧
      preprocess_document docBlank =
        Except.ok (dset docBlank "metadata" (PyVal.vdict
          (processMeta [("Tanggal Berlaku", PyVal.vstr "   ")]))) :=
  claim_c8_amended docBlank [("Tanggal Berlaku", PyVal.vstr "   ")]
    "Tanggal Berlaku" (PyVal.vstr "") rfl (by decide) rfl

/-- Claim C9: a recognized date field absent from the metadata before
normalization is absent from the output metadata after it; and a record
with no `metadata` key at all is returned by `preprocess_document`
completely unchanged. -/
theorem claim_c9 (doc : Dict) :
    (∀ md f, dget? doc "metadata" = some (PyVal.vdict md) → f ∈ date_fields →
      dget? md f = none →
      ∃ md2, preprocess_document doc =
          Except.ok (dset doc "metadata" (PyVal.vdict md2)) ∧
        dget? md2 f = none) ∧
    (dget? doc "metadata" = none → preprocess_document doc = Except.ok doc) := by
  constructor
  · intro md f hm _ hv
    exact ⟨processMeta md, preprocess_meta_dict doc md hm,
      processMeta_dget_none md f hv⟩
  · intro h
    exact preprocess_no_meta doc h

/-- Claim C9, witness: the scenario record keeps its missing
`Tanggal Penetapan` missing, and a record without `metadata` is returned
unchanged. -/
theorem claim_c9_witness :
    (∃ md2, preprocess_document docScenario =
        Except.ok (dset docScenario "metadata" (PyVal.vdict md2)) ∧
      dget? md2 "Tanggal Penetapan" = none) ∧
    preprocess_document [("abstrak", PyVal.vstr "x")] =
      Except.ok [("abstrak", PyVal.vstr "x")] :=
  ⟨(claim_c9 docScenario).1
      [("Tanggal Berlaku", PyVal.vstr "17 Agustus 1945")]
      "Tanggal Penetapan" rfl (by decide) rfl,
   (claim_c9 [("abstrak", PyVal.vstr "x")]).2 rfl⟩

/-- Claim C10: a record without a `metadata` key passes normalization
unchanged, but the unguarded `processed_item["metadata"]` of the
document-id computation makes `prepare_bulk_data` raise on any batch
containing such a record, so the batch-level handler counts the whole
batch — well-formed documents included — as not succeeded, for every
network behaviour. -/
theorem claim_c10 (batch : List Dict) (item : Dict)
    (hmem : item ∈ batch) (hno : dget? item "metadata" = none) :
    preprocess_document item = Except.ok item ∧
    (∃ e, prepare_bulk_data batch = Except.error e) ∧
    ∀ r, batchContrib batch r = 0 := by
  obtain ⟨e, he⟩ := prepare_error_of_no_meta batch item hmem hno
  refine ⟨preprocess_no_meta item hno, ⟨e, he⟩, ?_⟩
  intro r
  simp [batchContrib, he]

/-- Claim C10, witness: a batch holding one well-formed record and one
record without metadata raises during preparation and contributes
nothing. -/
theorem claim_c10_witness :
    (∃ e, prepare_bulk_data [docScenario, []] = Except.error e) ∧
    batchContrib [docScenario, []] (NetOutcome.resp 200 false []) = 0 := by
  have h := claim_c10 [docScenario, []] []
    (List.mem_cons_of_mem _ (List.mem_cons_self _ _)) rfl
  exact ⟨h.2.1, h.2.2 _⟩

end ESLoad
